import Mathlib

/-!
Verification of the margin-pool program's specification against its code.

The repository source under scrutiny is `margin-pool/program/src/instruction.rs`,
which declares the five-variant `MarginPoolInstruction` enum.  The curve engine,
the instruction processor and the pack/unpack routines are not part of the
provided sources, so those parts are modelled from the specification (each such
definition carries a doc comment beginning `Modelled from the spec:`).
-/

namespace MarginPool

/-- Error kinds of the program (spec §7). -/
inductive MarginPoolError where
  | AlreadyInitialized
  | InsufficientLiquidity
  | InsufficientShares
  | UnbalancedDeposit
  | SlippageExceeded
  | UnderwaterPosition
  | Unauthorized
  | TransferFailed
  deriving DecidableEq, Repr

/-- 2^64, the modulus of the `u64` fields of the instruction enum. -/
def u64Mod : Nat := 2 ^ 64

/-- Instructions supported by the MarginPool program, as declared in
`margin-pool/program/src/instruction.rs` lines 19-111, in declaration order:
Initialize, OpenPosition, ClosePosition, Deposit, Withdraw.  The Rust `u64`
(and `u8` nonce) fields are modelled as `Nat` together with the range predicate
`wfInstr`. -/
inductive MarginPoolInstruction where
  | Initialize (nonce : Nat)
  | OpenPosition (amount_in borrow minimum_amount_out : Nat)
  | ClosePosition (amount_in minimum_amount_out : Nat)
  | Deposit (pool_token_amount maximum_token_lp_amount : Nat)
  | Withdraw (pool_token_amount minimum_token_LP_amount : Nat)
  deriving DecidableEq, Repr

/-- The field ranges of the Rust declaration: `nonce : u8`, all other fields
`u64`. -/
def wfInstr : MarginPoolInstruction → Bool
  | .Initialize nonce => decide (nonce < 256)
  | .OpenPosition a b m => decide (a < u64Mod) && decide (b < u64Mod) && decide (m < u64Mod)
  | .ClosePosition a m => decide (a < u64Mod) && decide (m < u64Mod)
  | .Deposit s mx => decide (s < u64Mod) && decide (mx < u64Mod)
  | .Withdraw s mn => decide (s < u64Mod) && decide (mn < u64Mod)

/-- The single-byte discriminant of each variant: its position in the
declaration order of the Rust enum. -/
def tagOf : MarginPoolInstruction → Nat
  | .Initialize _ => 0
  | .OpenPosition _ _ _ => 1
  | .ClosePosition _ _ => 2
  | .Deposit _ _ => 3
  | .Withdraw _ _ => 4

/-- `k` little-endian base-256 digits of `n`. -/
def toLeBytes : Nat → Nat → List Nat
  | 0, _ => []
  | k + 1, n => n % 256 :: toLeBytes k (n / 256)

/-- Read back a little-endian base-256 digit list. -/
def fromLeBytes : List Nat → Nat
  | [] => 0
  | b :: bs => b + 256 * fromLeBytes bs

/-- Modelled from the spec: the serializer of `MarginPoolInstruction` (its Rust
pack routine is not under `src/`).  Spec §6: a single-byte discriminant in enum
declaration order, followed by exactly the declared fields, little-endian. -/
def pack : MarginPoolInstruction → List Nat
  | .Initialize nonce => [0, nonce]
  | .OpenPosition a b m => 1 :: (toLeBytes 8 a ++ (toLeBytes 8 b ++ toLeBytes 8 m))
  | .ClosePosition a m => 2 :: (toLeBytes 8 a ++ toLeBytes 8 m)
  | .Deposit s mx => 3 :: (toLeBytes 8 s ++ toLeBytes 8 mx)
  | .Withdraw s mn => 4 :: (toLeBytes 8 s ++ toLeBytes 8 mn)

/-- Modelled from the spec: the deserializer of `MarginPoolInstruction` (its
Rust unpack routine is not under `src/`).  Dispatches on the single-byte
discriminant and reads the declared fields little-endian. -/
def unpack : List Nat → Option MarginPoolInstruction
  | 0 :: rest =>
    match rest with
    | [nonce] => some (.Initialize nonce)
    | _ => none
  | 1 :: rest =>
    if rest.length = 24 then
      some (.OpenPosition (fromLeBytes (rest.take 8))
        (fromLeBytes ((rest.drop 8).take 8))
        (fromLeBytes ((rest.drop 8).drop 8)))
    else none
  | 2 :: rest =>
    if rest.length = 16 then
      some (.ClosePosition (fromLeBytes (rest.take 8)) (fromLeBytes (rest.drop 8)))
    else none
  | 3 :: rest =>
    if rest.length = 16 then
      some (.Deposit (fromLeBytes (rest.take 8)) (fromLeBytes (rest.drop 8)))
    else none
  | 4 :: rest =>
    if rest.length = 16 then
      some (.Withdraw (fromLeBytes (rest.take 8)) (fromLeBytes (rest.drop 8)))
    else none
  | _ => none

/-- Modelled from the spec: the persistent Pool record (spec §3); the state and
processor sources are not under `src/`.  `reserveA`/`reserveB` are the two swap
reserve balances, `borrowReserve` the balance of the token_X Base BORROW
account of the OpenPosition/ClosePosition account lists, `supply` the
share-mint supply, and `feeNum`/`feeDen` the withdrawal-fee configuration
constant of spec §4.3.  Balances are `Nat`: unsigned, never negative. -/
structure Pool where
  reserveA : Nat
  reserveB : Nat
  borrowReserve : Nat
  supply : Nat
  feeNum : Nat
  feeDen : Nat
  nonce : Nat
  deriving DecidableEq, Repr

/-- Modelled from the spec: the Position record (spec §3): the outstanding
borrow and the trader's contributed collateral. -/
structure Position where
  borrow : Nat
  collateral : Nat
  deriving DecidableEq, Repr

/-- Modelled from the spec: the Curve Engine's constant-product `quote_swap`
(spec §4.1; its source is not under `src/`).  Output is
`floor(reserve_out * amount_in / (reserve_in + amount_in))` (spec §8 concrete
scenario), rounded down in favor of the pool; fails with
`InsufficientLiquidity` if `reserve_out` is zero or `amount_in` is zero. -/
def quote_swap (reserve_in reserve_out amount_in : Nat) :
    Except MarginPoolError Nat :=
  if reserve_out = 0 ∨ amount_in = 0 then .error .InsufficientLiquidity
  else .ok (reserve_out * amount_in / (reserve_in + amount_in))

/-- Modelled from the spec: the OpenPosition handler (spec §4.2; the processor
source is not under `src/`).  Swaps `amount_in + borrow` of asset A for asset
B, checks the slippage floor, lends `borrow` out of the borrow reserve, and
creates the Position.  Returns the updated pool, the new position and the swap
output. -/
def openPosition (p : Pool) (amount_in borrow minimum_amount_out : Nat) :
    Except MarginPoolError (Pool × Position × Nat) :=
  match quote_swap p.reserveA p.reserveB (amount_in + borrow) with
  | .error e => .error e
  | .ok out =>
    if out < minimum_amount_out then .error .SlippageExceeded
    else if p.borrowReserve < borrow then .error .InsufficientLiquidity
    else
      .ok ({ p with
              reserveA := p.reserveA + (amount_in + borrow)
              reserveB := p.reserveB - out
              borrowReserve := p.borrowReserve - borrow },
        { borrow := borrow, collateral := amount_in }, out)

/-- Modelled from the spec: the ClosePosition handler (spec §4.2; the processor
source is not under `src/`).  Swaps `amount_in` of asset B back into asset A,
checks the slippage floor, requires the output to cover the outstanding borrow
(else `UnderwaterPosition`), repays the borrow to the pool's borrow reserve and
returns the remainder to the trader.  Returns the updated pool and the trader's
remainder. -/
def closePosition (p : Pool) (pos : Position) (amount_in minimum_amount_out : Nat) :
    Except MarginPoolError (Pool × Nat) :=
  match quote_swap p.reserveB p.reserveA amount_in with
  | .error e => .error e
  | .ok out =>
    if out < minimum_amount_out then .error .SlippageExceeded
    else if out < pos.borrow then .error .UnderwaterPosition
    else
      .ok ({ p with
              reserveA := p.reserveA - out
              reserveB := p.reserveB + amount_in
              borrowReserve := p.borrowReserve + pos.borrow },
        out - pos.borrow)

/-- Ceiling division on `Nat`: rounds a required-input computation up in the
pool's favor (spec §4.1). -/
def divUp (x d : Nat) : Nat := (x + d - 1) / d

/-- Modelled from the spec: the Deposit handler (spec §4.3; the processor
source is not under `src/`).  Converts the desired share amount into required
asset amounts via the inverse of `quote_deposit`, rounding up in the pool's
favor; on the first deposit into an empty pool the symmetric initial-share rule
requires equal amounts of each asset.  Fails with `SlippageExceeded` if either
required amount exceeds `maximum_token_lp_amount`; otherwise mints the shares
and credits both reserves.  Returns the updated pool and the required amounts
taken from the depositor. -/
def deposit (p : Pool) (pool_token_amount maximum_token_lp_amount : Nat) :
    Except MarginPoolError (Pool × Nat × Nat) :=
  let requiredA :=
    if p.supply = 0 then pool_token_amount
    else divUp (pool_token_amount * p.reserveA) p.supply
  let requiredB :=
    if p.supply = 0 then pool_token_amount
    else divUp (pool_token_amount * p.reserveB) p.supply
  if maximum_token_lp_amount < requiredA ∨ maximum_token_lp_amount < requiredB then
    .error .SlippageExceeded
  else
    .ok ({ p with
            reserveA := p.reserveA + requiredA
            reserveB := p.reserveB + requiredB
            supply := p.supply + pool_token_amount },
      requiredA, requiredB)

/-- Modelled from the spec: the Withdraw handler (spec §4.3; the processor
source is not under `src/`).  Fails with `InsufficientShares` if the burned
shares exceed the caller's balance (bounded by the total supply, spec §3);
computes the proportional redemption rounded down, deducts the withdrawal fee
from the output, checks the post-fee total against
`minimum_token_LP_amount`, then burns the shares and debits the reserves.
Returns the updated pool and the post-fee amounts credited to the trader. -/
def withdraw (p : Pool) (pool_token_amount minimum_token_LP_amount : Nat) :
    Except MarginPoolError (Pool × Nat × Nat) :=
  if p.supply < pool_token_amount then .error .InsufficientShares
  else
    let grossA := pool_token_amount * p.reserveA / p.supply
    let grossB := pool_token_amount * p.reserveB / p.supply
    let outA := grossA - grossA * p.feeNum / p.feeDen
    let outB := grossB - grossB * p.feeNum / p.feeDen
    if outA + outB < minimum_token_LP_amount then .error .SlippageExceeded
    else
      .ok ({ p with
              reserveA := p.reserveA - grossA
              reserveB := p.reserveB - grossB
              supply := p.supply - pool_token_amount },
        outA, outB)

/-- Modelled from the spec: the Initialize handler (spec §4.4; the processor
source is not under `src/`).  `preA`/`preB` are the balances the two reserve
accounts hold before initialization and `preMint` the share-mint supply; `acc`
is the pool account's current record.  Fails with `AlreadyInitialized` if the
pool record already exists or any of those balances is nonzero; otherwise
writes the fresh Pool record once. -/
def initializePool (nonce preA preB preMint : Nat) (acc : Option Pool)
    (feeNum feeDen : Nat) : Except MarginPoolError Pool :=
  match acc with
  | some _ => .error .AlreadyInitialized
  | none =>
    if preA ≠ 0 ∨ preB ≠ 0 ∨ preMint ≠ 0 then .error .AlreadyInitialized
    else
      .ok { reserveA := 0, reserveB := 0, borrowReserve := 0, supply := 0,
            feeNum := feeNum, feeDen := feeDen, nonce := nonce }

/-- The per-pool state an instruction can read or write: the pool record and
the (at most one, in this model) position account. -/
structure SysState where
  pool : Pool
  position : Option Position
  deriving DecidableEq, Repr

/-- A decoded post-initialization request, mirroring the argument lists of the
OpenPosition, ClosePosition, Deposit and Withdraw variants of
`MarginPoolInstruction`. -/
inductive Req where
  | openReq (amount_in borrow minimum_amount_out : Nat)
  | closeReq (amount_in minimum_amount_out : Nat)
  | depositReq (pool_token_amount maximum_token_lp_amount : Nat)
  | withdrawReq (pool_token_amount minimum_token_LP_amount : Nat)
  deriving DecidableEq, Repr

/-- Modelled from the spec: the Processor's dispatch over a loaded pool state
(spec §2, §4.2, §4.3; the processor source is not under `src/`).  OpenPosition
requires an uninitialized position account and writes the new Position;
ClosePosition requires the caller's open Position and destroys it. -/
def applyReq (s : SysState) (r : Req) : Except MarginPoolError SysState :=
  match r with
  | .openReq a b m =>
    match s.position with
    | some _ => .error .AlreadyInitialized
    | none =>
      match openPosition s.pool a b m with
      | .error e => .error e
      | .ok (p', pos, _) => .ok ⟨p', some pos⟩
  | .closeReq a m =>
    match s.position with
    | none => .error .Unauthorized
    | some pos =>
      match closePosition s.pool pos a m with
      | .error e => .error e
      | .ok (p', _) => .ok ⟨p', none⟩
  | .depositReq amt mx =>
    match deposit s.pool amt mx with
    | .error e => .error e
    | .ok (p', _, _) => .ok ⟨p', s.position⟩
  | .withdrawReq amt mn =>
    match withdraw s.pool amt mn with
    | .error e => .error e
    | .ok (p', _, _) => .ok ⟨p', s.position⟩

/-- The externally observed state transition of one instruction: the new state
on success, the unchanged state on any failure (spec §5 atomicity). -/
def stepSys (s : SysState) (r : Req) : SysState :=
  match applyReq s r with
  | .ok s' => s'
  | .error _ => s

/-- The externally observed pool-account content after an Initialize attempt:
the fresh record on success, the unchanged account on failure. -/
def stepInit (nonce preA preB preMint : Nat) (acc : Option Pool)
    (feeNum feeDen : Nat) : Option Pool :=
  match initializePool nonce preA preB preMint acc feeNum feeDen with
  | .ok p => some p
  | .error _ => acc

/-- The Pool invariant of spec §3: the share-mint supply is zero exactly when
both reserves are zero.  (Reserves are `Nat`, hence never negative by
construction.) -/
def PoolInv (p : Pool) : Prop :=
  p.supply = 0 ↔ (p.reserveA = 0 ∧ p.reserveB = 0)

instance (p : Pool) : Decidable (PoolInv p) :=
  inferInstanceAs (Decidable (p.supply = 0 ↔ (p.reserveA = 0 ∧ p.reserveB = 0)))

/-- The states reachable from a successful Initialize by any sequence of the
four post-initialization operations (each applied atomically). -/
inductive Reachable : SysState → Prop where
  | base (nonce feeNum feeDen : Nat) (p : Pool)
      (h : initializePool nonce 0 0 0 none feeNum feeDen = .ok p) :
      Reachable ⟨p, none⟩
  | step (s : SysState) (r : Req) (h : Reachable s) : Reachable (stepSys s r)

/-! ## Helper lemmas -/

@[simp]
theorem toLeBytes_length (k n : Nat) : (toLeBytes k n).length = k := by
  induction k generalizing n with
  | zero => rfl
  | succ k ih => simp [toLeBytes, ih]

theorem fromLe_toLe (k n : Nat) (h : n < 256 ^ k) :
    fromLeBytes (toLeBytes k n) = n := by
  induction k generalizing n with
  | zero =>
    rw [pow_zero] at h
    simp [toLeBytes, fromLeBytes]
    omega
  | succ k ih =>
    have hdiv : n / 256 < 256 ^ k := by
      rw [Nat.div_lt_iff_lt_mul (by norm_num : (0 : Nat) < 256)]
      calc n < 256 ^ (k + 1) := h
        _ = 256 ^ k * 256 := by rw [pow_succ]
    simp only [toLeBytes, fromLeBytes, ih _ hdiv]
    omega

theorem le_divUp_mul (x d : Nat) (hd : 0 < d) : x ≤ divUp x d * d := by
  unfold divUp
  have h1 := Nat.div_add_mod (x + d - 1) d
  have h2 : (x + d - 1) % d < d := Nat.mod_lt _ hd
  rw [Nat.mul_comm]
  omega

theorem div_le_of_le_mul_den {n m k : Nat} (hk : 0 < k) (h : n ≤ m * k) :
    n / k ≤ m := by
  calc n / k ≤ m * k / k := Nat.div_le_div_right h
    _ = m := Nat.mul_div_cancel m hk

theorem swap_ratio_le (S rA d : Nat) (hd : 0 < d) :
    S * (rA + divUp (S * rA) d) / (d + S) ≤ divUp (S * rA) d := by
  unfold divUp
  have h1 := Nat.div_add_mod (S * rA + d - 1) d
  have h2 : (S * rA + d - 1) % d < d := Nat.mod_lt _ hd
  set q := (S * rA + d - 1) / d with hq
  have hle : S * rA ≤ q * d := by rw [Nat.mul_comm q d]; omega
  have key : S * (rA + q) ≤ q * (d + S) := by
    calc S * (rA + q) = S * rA + S * q := Nat.mul_add S rA q
      _ ≤ q * d + q * S := Nat.add_le_add hle (Nat.le_of_eq (Nat.mul_comm S q))
      _ = q * (d + S) := (Nat.mul_add q d S).symm
  calc S * (rA + q) / (d + S) ≤ q * (d + S) / (d + S) := Nat.div_le_div_right key
    _ = q := Nat.mul_div_cancel q (by omega)

/-! ## Claim theorems -/

/-- C1 counterexample: with reserve_in = 0 (a reserve pair the spec's curve
contract admits, since its only failure conditions are a zero `reserve_out` or
a zero `amount_in`), the constant-product quote returns the whole output
reserve: `quote_swap 0 5 5 = ok 5`, which is not strictly below the output
reserve 5.  A single swap can thus fully drain the output reserve. -/
theorem quote_swap_drain_cex :
    quote_swap 0 5 5 = .ok 5 ∧ ¬(5 < 5) :=
  ⟨rfl, by omega⟩

/-- C1 (amended): for every reserve pair with `reserve_in > 0` and every
successful quote (which per the curve contract requires `reserve_out > 0` and
`amount_in > 0`), the output is strictly less than the output reserve, so no
single swap can fully drain it. -/
theorem quote_swap_lt_reserve_out (reserve_in reserve_out amount_in out : Nat)
    (hin : 0 < reserve_in)
    (h : quote_swap reserve_in reserve_out amount_in = .ok out) :
    out < reserve_out := by
  unfold quote_swap at h
  split at h
  · exact absurd h (by simp)
  · rename_i hcond
    push_neg at hcond
    obtain ⟨ho, ha⟩ := hcond
    simp only [Except.ok.injEq] at h
    subst h
    rw [Nat.div_lt_iff_lt_mul (by omega)]
    exact mul_lt_mul_of_pos_left (by omega) (Nat.pos_of_ne_zero ho)

/-- C1 witness: the concrete quote (1000, 1000, 150) returns 130 < 1000. -/
theorem quote_swap_lt_reserve_out_witness : (130 : Nat) < 1000 :=
  quote_swap_lt_reserve_out 1000 1000 150 130 (by omega) rfl

/-- C4: for a fixed reserve pair, the swap output is monotonic non-decreasing
in the input amount: whenever both quotes succeed and
`amount_in1 ≤ amount_in2`, the first output is at most the second. -/
theorem quote_swap_mono (reserve_in reserve_out a1 a2 o1 o2 : Nat)
    (h12 : a1 ≤ a2)
    (h1 : quote_swap reserve_in reserve_out a1 = .ok o1)
    (h2 : quote_swap reserve_in reserve_out a2 = .ok o2) : o1 ≤ o2 := by
  unfold quote_swap at h1 h2
  split at h1
  · exact absurd h1 (by simp)
  · rename_i hc1
    split at h2
    · exact absurd h2 (by simp)
    · rename_i hc2
      push_neg at hc1
      obtain ⟨ho, ha1⟩ := hc1
      simp only [Except.ok.injEq] at h1 h2
      subst h1
      subst h2
      have hk1 : 0 < reserve_in + a1 := by omega
      have hk2 : 0 < reserve_in + a2 := by omega
      rw [Nat.le_div_iff_mul_le hk2]
      set q := reserve_out * a1 / (reserve_in + a1) with hqdef
      have hqb : q * (reserve_in + a1) ≤ reserve_out * a1 :=
        Nat.div_mul_le_self (reserve_out * a1) (reserve_in + a1)
      have hqle : q ≤ reserve_out := by
        have hstep : reserve_out * a1 ≤ reserve_out * (reserve_in + a1) :=
          mul_le_mul_left' (by omega) reserve_out
        calc q ≤ reserve_out * (reserve_in + a1) / (reserve_in + a1) :=
              Nat.div_le_div_right hstep
          _ = reserve_out := Nat.mul_div_cancel reserve_out hk1
      have e1 : reserve_in + a2 = (reserve_in + a1) + (a2 - a1) := by omega
      have e2 : a1 + (a2 - a1) = a2 := by omega
      calc q * (reserve_in + a2)
          = q * (reserve_in + a1) + q * (a2 - a1) := by rw [e1, Nat.mul_add]
        _ ≤ reserve_out * a1 + reserve_out * (a2 - a1) :=
            Nat.add_le_add hqb (mul_le_mul_right' hqle (a2 - a1))
        _ = reserve_out * (a1 + (a2 - a1)) := (Nat.mul_add reserve_out a1 (a2 - a1)).symm
        _ = reserve_out * a2 := by rw [e2]

/-- C4 witness: quotes at (1000, 1000) with inputs 100 ≤ 150 give 90 ≤ 130. -/
theorem quote_swap_mono_witness : (90 : Nat) ≤ 130 :=
  quote_swap_mono 1000 1000 100 150 90 130 (by omega) rfl rfl

/-- The pool of the spec §8 concrete scenario: reserves (1000, 1000) under the
constant-product curve (borrow reserve funded with 1000, supply 1000, no
withdrawal fee). -/
def scenarioPool : Pool :=
  { reserveA := 1000, reserveB := 1000, borrowReserve := 1000, supply := 1000,
    feeNum := 0, feeDen := 1, nonce := 0 }

/-- C2: on reserves (1000, 1000), OpenPosition with amount_in = 100 and
borrow = 50 quotes floor(1000 × 150 / 1150) = 130; with
minimum_amount_out = 140 it fails with SlippageExceeded, and with
minimum_amount_out = 100 it succeeds with output 130, reserve_in updated to
1150, reserve_out updated to 870, and a new Position recording borrow = 50. -/
theorem openPosition_scenario :
    openPosition scenarioPool 100 50 140 = .error .SlippageExceeded ∧
    openPosition scenarioPool 100 50 100 =
      .ok ({ scenarioPool with reserveA := 1150, reserveB := 870, borrowReserve := 950 },
        { borrow := 50, collateral := 100 }, 130) :=
  ⟨rfl, rfl⟩

/-- C3: the serialized encoding of every well-formed instruction begins with
the single-byte discriminant given by the variant's position in the enum's
declaration order, followed by the declared fields little-endian, and decoding
the encoding yields the same instruction back. -/
theorem pack_roundtrip (i : MarginPoolInstruction) (h : wfInstr i = true) :
    (pack i).head? = some (tagOf i) ∧ unpack (pack i) = some i := by
  have h8 : u64Mod = 256 ^ 8 := by norm_num [u64Mod]
  cases i with
  | Initialize nonce =>
    exact ⟨rfl, rfl⟩
  | OpenPosition a b m =>
    simp only [wfInstr, Bool.and_eq_true, decide_eq_true_eq, h8] at h
    obtain ⟨⟨ha, hb⟩, hm⟩ := h
    refine ⟨rfl, ?_⟩
    have la : (toLeBytes 8 a).length = 8 := toLeBytes_length 8 a
    have lb : (toLeBytes 8 b).length = 8 := toLeBytes_length 8 b
    simp only [pack, unpack]
    rw [if_pos (by simp)]
    rw [List.take_left' la, List.drop_left' la, List.take_left' lb, List.drop_left' lb]
    rw [fromLe_toLe _ _ ha, fromLe_toLe _ _ hb, fromLe_toLe _ _ hm]
  | ClosePosition a m =>
    simp only [wfInstr, Bool.and_eq_true, decide_eq_true_eq, h8] at h
    obtain ⟨ha, hm⟩ := h
    refine ⟨rfl, ?_⟩
    have la : (toLeBytes 8 a).length = 8 := toLeBytes_length 8 a
    simp only [pack, unpack]
    rw [if_pos (by simp)]
    rw [List.take_left' la, List.drop_left' la]
    rw [fromLe_toLe _ _ ha, fromLe_toLe _ _ hm]
  | Deposit s mx =>
    simp only [wfInstr, Bool.and_eq_true, decide_eq_true_eq, h8] at h
    obtain ⟨hs, hmx⟩ := h
    refine ⟨rfl, ?_⟩
    have ls : (toLeBytes 8 s).length = 8 := toLeBytes_length 8 s
    simp only [pack, unpack]
    rw [if_pos (by simp)]
    rw [List.take_left' ls, List.drop_left' ls]
    rw [fromLe_toLe _ _ hs, fromLe_toLe _ _ hmx]
  | Withdraw s mn =>
    simp only [wfInstr, Bool.and_eq_true, decide_eq_true_eq, h8] at h
    obtain ⟨hs, hmn⟩ := h
    refine ⟨rfl, ?_⟩
    have ls : (toLeBytes 8 s).length = 8 := toLeBytes_length 8 s
    simp only [pack, unpack]
    rw [if_pos (by simp)]
    rw [List.take_left' ls, List.drop_left' ls]
    rw [fromLe_toLe _ _ hs, fromLe_toLe _ _ hmn]

/-- C3 witness: the concrete instruction OpenPosition(1, 2, 3) round-trips and
its encoding starts with discriminant 1. -/
theorem pack_roundtrip_witness :
    (pack (.OpenPosition 1 2 3)).head? = some (tagOf (.OpenPosition 1 2 3)) ∧
      unpack (pack (.OpenPosition 1 2 3)) = some (.OpenPosition 1 2 3) :=
  pack_roundtrip (.OpenPosition 1 2 3) (by decide)

/-- C10: both u64 fields of OpenPosition range over the full u64 domain, so
the mathematical sum amount_in + borrow can reach 2^65 − 2, which exceeds the
u64 range; a wrapping (mod 2^64) addition would not compute that sum. -/
theorem openPosition_sum_overflow :
    ∃ a b m, wfInstr (.OpenPosition a b m) = true ∧
      a + b = 2 ^ 65 - 2 ∧ (a + b) % 2 ^ 64 ≠ a + b := by
  refine ⟨2 ^ 64 - 1, 2 ^ 64 - 1, 0, ?_, by norm_num, ?_⟩
  · simp only [wfInstr, Bool.and_eq_true, decide_eq_true_eq, u64Mod]
    norm_num
  · norm_num

/-- C5: every operation is atomic with validate-then-commit ordering.  When an
operation returns an error, the externally observed state transition is the
identity: the pool record, the position record and the reserves are unchanged
(for Initialize, the pool account keeps its previous content). -/
theorem error_leaves_state_unchanged :
    (∀ (s : SysState) (r : Req) (e : MarginPoolError),
        applyReq s r = .error e → stepSys s r = s) ∧
    (∀ (nonce preA preB preMint : Nat) (acc : Option Pool)
        (feeNum feeDen : Nat) (e : MarginPoolError),
        initializePool nonce preA preB preMint acc feeNum feeDen = .error e →
          stepInit nonce preA preB preMint acc feeNum feeDen = acc) := by
  constructor
  · intro s r e h
    unfold stepSys
    rw [h]
  · intro nonce preA preB preMint acc feeNum feeDen e h
    unfold stepInit
    rw [h]

/-- C6: Initialize validates that both reserve accounts and the share-mint
supply are zero, failing with AlreadyInitialized otherwise; on an account that
already holds a pool record it always fails with AlreadyInitialized, so it can
run at most once per pool account. -/
theorem initialize_at_most_once
    (nonce preA preB preMint feeNum feeDen : Nat) (p : Pool) :
    initializePool nonce preA preB preMint (some p) feeNum feeDen =
      .error .AlreadyInitialized ∧
    (¬(preA = 0 ∧ preB = 0 ∧ preMint = 0) →
      initializePool nonce preA preB preMint none feeNum feeDen =
        .error .AlreadyInitialized) ∧
    ((preA = 0 ∧ preB = 0 ∧ preMint = 0) →
      initializePool nonce preA preB preMint none feeNum feeDen =
        .ok { reserveA := 0, reserveB := 0, borrowReserve := 0, supply := 0,
              feeNum := feeNum, feeDen := feeDen, nonce := nonce }) := by
  refine ⟨rfl, ?_, ?_⟩
  · intro h
    unfold initializePool
    rw [if_pos (by tauto)]
  · rintro ⟨h1, h2, h3⟩
    unfold initializePool
    rw [if_neg (by tauto)]

/-- C6 witness: a concrete second Initialize on an already-written pool account
fails with AlreadyInitialized, while the first one on all-zero accounts
succeeds. -/
theorem initialize_at_most_once_witness :
    initializePool 1 0 0 0 (some scenarioPool) 0 1 = .error .AlreadyInitialized ∧
    initializePool 1 0 0 0 none 0 1 =
      .ok { reserveA := 0, reserveB := 0, borrowReserve := 0, supply := 0,
            feeNum := 0, feeDen := 1, nonce := 1 } :=
  ⟨(initialize_at_most_once 1 0 0 0 0 1 scenarioPool).1,
    (initialize_at_most_once 1 0 0 0 0 1 scenarioPool).2.2 ⟨rfl, rfl, rfl⟩⟩

/-- C8: for a ClosePosition whose reverse-direction swap output satisfies the
slippage floor, the operation fails with UnderwaterPosition whenever the
output is strictly below the position's outstanding borrow; when the output
covers the borrow, it repays the borrow to the pool's borrow reserve, returns
the remainder `out − borrow` to the trader, and destroys the Position
record. -/
theorem closePosition_spec (p : Pool) (pos : Position)
    (amount_in minimum_amount_out out : Nat)
    (hq : quote_swap p.reserveB p.reserveA amount_in = .ok out)
    (hmin : minimum_amount_out ≤ out) :
    (out < pos.borrow →
      closePosition p pos amount_in minimum_amount_out =
          .error .UnderwaterPosition ∧
        applyReq ⟨p, some pos⟩ (.closeReq amount_in minimum_amount_out) =
          .error .UnderwaterPosition) ∧
    (pos.borrow ≤ out →
      closePosition p pos amount_in minimum_amount_out =
          .ok ({ p with
                   reserveA := p.reserveA - out,
                   reserveB := p.reserveB + amount_in,
                   borrowReserve := p.borrowReserve + pos.borrow },
            out - pos.borrow) ∧
        applyReq ⟨p, some pos⟩ (.closeReq amount_in minimum_amount_out) =
          .ok ⟨{ p with
                   reserveA := p.reserveA - out,
                   reserveB := p.reserveB + amount_in,
                   borrowReserve := p.borrowReserve + pos.borrow }, none⟩) := by
  constructor
  · intro hlt
    have hc : closePosition p pos amount_in minimum_amount_out =
        .error .UnderwaterPosition := by
      unfold closePosition
      rw [hq]
      simp only
      rw [if_neg (by omega), if_pos hlt]
    refine ⟨hc, ?_⟩
    simp only [applyReq]
    rw [hc]
  · intro hge
    have hc : closePosition p pos amount_in minimum_amount_out =
        .ok ({ p with
                 reserveA := p.reserveA - out,
                 reserveB := p.reserveB + amount_in,
                 borrowReserve := p.borrowReserve + pos.borrow },
          out - pos.borrow) := by
      unfold closePosition
      rw [hq]
      simp only
      rw [if_neg (by omega), if_neg (by omega)]
    refine ⟨hc, ?_⟩
    simp only [applyReq]
    rw [hc]

/-- C8 witness: on a pool with reserves (1000, 1000), returning 100 of asset B
quotes 90 of asset A; against an outstanding borrow of 95 the close fails with
UnderwaterPosition, while against a borrow of 60 it succeeds and returns the
remainder 30 to the trader. -/
theorem closePosition_spec_witness :
    closePosition ⟨1000, 1000, 0, 1000, 0, 1, 0⟩ ⟨95, 10⟩ 100 50 =
        .error .UnderwaterPosition ∧
      closePosition ⟨1000, 1000, 0, 1000, 0, 1, 0⟩ ⟨60, 10⟩ 100 50 =
        .ok (⟨910, 1100, 60, 1000, 0, 1, 0⟩, 30) :=
  ⟨((closePosition_spec ⟨1000, 1000, 0, 1000, 0, 1, 0⟩ ⟨95, 10⟩ 100 50 90 rfl
      (by omega)).1 (by decide)).1,
    ((closePosition_spec ⟨1000, 1000, 0, 1000, 0, 1, 0⟩ ⟨60, 10⟩ 100 50 90 rfl
      (by omega)).2 (by decide)).1⟩

theorem gross_le_req (d rA S : Nat) (hInv0 : d = 0 → rA = 0) :
    S * (rA + (if d = 0 then S else divUp (S * rA) d)) / (d + S) ≤
      (if d = 0 then S else divUp (S * rA) d) := by
  by_cases hd0 : d = 0
  · subst hd0
    rw [hInv0 rfl]
    simp only [reduceIte, Nat.zero_add]
    rcases Nat.eq_zero_or_pos S with h | h
    · subst h
      simp
    · rw [Nat.mul_div_cancel _ h]
  · rw [if_neg hd0]
    exact swap_ratio_le S rA d (Nat.pos_of_ne_zero hd0)

/-- C7: on any pool satisfying the pool invariant, a Deposit followed
immediately by a Withdraw of the same share amount (no intervening trades)
credits the trader with at most the originally deposited amount of each asset:
output rounding and the ceiling-rounded required inputs favor the pool, and
the configured withdrawal fee only further reduces the return. -/
theorem deposit_withdraw_le (p : Pool) (S mx mn : Nat)
    (p1 p2 : Pool) (reqA reqB outA outB : Nat)
    (hInv : PoolInv p)
    (hd : deposit p S mx = .ok (p1, reqA, reqB))
    (hw : withdraw p1 S mn = .ok (p2, outA, outB)) :
    outA ≤ reqA ∧ outB ≤ reqB := by
  simp only [deposit] at hd
  set reqA' := if p.supply = 0 then S else divUp (S * p.reserveA) p.supply with hrA
  set reqB' := if p.supply = 0 then S else divUp (S * p.reserveB) p.supply with hrB
  split at hd
  · exact absurd hd (by simp)
  · simp only [Except.ok.injEq, Prod.mk.injEq] at hd
    obtain ⟨hp1, hqa, hqb⟩ := hd
    have h1 : p1.reserveA = p.reserveA + reqA' := by rw [← hp1]
    have h2 : p1.reserveB = p.reserveB + reqB' := by rw [← hp1]
    have h3 : p1.supply = p.supply + S := by rw [← hp1]
    simp only [withdraw, h1, h2, h3] at hw
    split at hw
    · exact absurd hw (by simp)
    · split at hw
      · exact absurd hw (by simp)
      · simp only [Except.ok.injEq, Prod.mk.injEq] at hw
        obtain ⟨hp2, houtA, houtB⟩ := hw
        constructor
        · rw [← houtA, ← hqa]
          refine Nat.le_trans (Nat.sub_le _ _) ?_
          rw [hrA]
          exact gross_le_req p.supply p.reserveA S (fun h => (hInv.mp h).1)
        · rw [← houtB, ← hqb]
          refine Nat.le_trans (Nat.sub_le _ _) ?_
          rw [hrB]
          exact gross_le_req p.supply p.reserveB S (fun h => (hInv.mp h).2)

/-- C7 witness: depositing 100 shares into the scenario pool takes 100 of each
asset and withdrawing the same 100 shares immediately returns exactly 100 of
each, which is at most what was deposited. -/
theorem deposit_withdraw_le_witness : (100 : Nat) ≤ 100 ∧ (100 : Nat) ≤ 100 :=
  deposit_withdraw_le scenarioPool 100 1000 0
    ⟨1100, 1100, 1000, 1100, 0, 1, 0⟩ ⟨1000, 1000, 1000, 1000, 0, 1, 0⟩
    100 100 100 100 (by decide) rfl rfl

theorem open_preserves_inv (p : Pool) (a b m : Nat) (p' : Pool)
    (pos : Position) (out : Nat) (hInv : PoolInv p)
    (h : openPosition p a b m = .ok (p', pos, out)) : PoolInv p' := by
  unfold openPosition quote_swap at h
  split at h
  · exact absurd h (by simp)
  · rename_i out' heq
    split at heq
    · exact absurd heq (by simp)
    · rename_i hcond
      have hrb : p.reserveB ≠ 0 := fun hh => hcond (Or.inl hh)
      have htot : a + b ≠ 0 := fun hh => hcond (Or.inr hh)
      split at h
      · exact absurd h (by simp)
      · split at h
        · exact absurd h (by simp)
        · simp only [Except.ok.injEq, Prod.mk.injEq] at h
          obtain ⟨hp', -, -⟩ := h
          subst hp'
          unfold PoolInv at hInv
          show p.supply = 0 ↔ (p.reserveA + (a + b) = 0 ∧ p.reserveB - out' = 0)
          omega

theorem close_preserves_inv (p : Pool) (pos : Position) (a m : Nat)
    (p' : Pool) (ret : Nat) (hInv : PoolInv p)
    (h : closePosition p pos a m = .ok (p', ret)) : PoolInv p' := by
  unfold closePosition quote_swap at h
  split at h
  · exact absurd h (by simp)
  · rename_i out' heq
    split at heq
    · exact absurd heq (by simp)
    · rename_i hcond
      have hra : p.reserveA ≠ 0 := fun hh => hcond (Or.inl hh)
      have ha : a ≠ 0 := fun hh => hcond (Or.inr hh)
      split at h
      · exact absurd h (by simp)
      · split at h
        · exact absurd h (by simp)
        · simp only [Except.ok.injEq, Prod.mk.injEq] at h
          obtain ⟨hp', -⟩ := h
          subst hp'
          unfold PoolInv at hInv
          show p.supply = 0 ↔ (p.reserveA - out' = 0 ∧ p.reserveB + a = 0)
          omega

theorem deposit_preserves_inv (p : Pool) (S mx : Nat) (p' : Pool)
    (qA qB : Nat) (hInv : PoolInv p)
    (h : deposit p S mx = .ok (p', qA, qB)) : PoolInv p' := by
  simp only [deposit] at h
  set reqA' := if p.supply = 0 then S else divUp (S * p.reserveA) p.supply with hrA
  set reqB' := if p.supply = 0 then S else divUp (S * p.reserveB) p.supply with hrB
  split at h
  · exact absurd h (by simp)
  · simp only [Except.ok.injEq, Prod.mk.injEq] at h
    obtain ⟨hp', -, -⟩ := h
    subst hp'
    unfold PoolInv at hInv ⊢
    simp only
    by_cases hs : p.supply = 0
    · have hA : reqA' = S := by rw [hrA, if_pos hs]
      have hB : reqB' = S := by rw [hrB, if_pos hs]
      omega
    · omega

theorem withdraw_preserves_inv (p : Pool) (S mn : Nat) (p' : Pool)
    (oA oB : Nat) (hInv : PoolInv p)
    (h : withdraw p S mn = .ok (p', oA, oB)) : PoolInv p' := by
  simp only [withdraw] at h
  split at h
  · exact absurd h (by simp)
  · rename_i hle
    push_neg at hle
    split at h
    · exact absurd h (by simp)
    · simp only [Except.ok.injEq, Prod.mk.injEq] at h
      obtain ⟨hp', -, -⟩ := h
      subst hp'
      set grossA := S * p.reserveA / p.supply with hgA
      set grossB := S * p.reserveB / p.supply with hgB
      have f1 : p.supply = 0 → grossA = 0 := by
        intro h0
        rw [hgA, h0, Nat.div_zero]
      have f2 : p.supply = 0 → grossB = 0 := by
        intro h0
        rw [hgB, h0, Nat.div_zero]
      have f3 : S = p.supply → 0 < p.supply → grossA = p.reserveA := by
        intro hSs hpos
        rw [hgA, hSs, Nat.mul_div_cancel_left _ hpos]
      have f4 : S = p.supply → 0 < p.supply → grossB = p.reserveB := by
        intro hSs hpos
        rw [hgB, hSs, Nat.mul_div_cancel_left _ hpos]
      have f5 : p.reserveA ≠ 0 → S < p.supply → grossA < p.reserveA := by
        intro hA hS
        rw [hgA, Nat.div_lt_iff_lt_mul (by omega)]
        calc S * p.reserveA < p.supply * p.reserveA :=
              mul_lt_mul_of_pos_right hS (Nat.pos_of_ne_zero hA)
          _ = p.reserveA * p.supply := Nat.mul_comm _ _
      have f6 : p.reserveB ≠ 0 → S < p.supply → grossB < p.reserveB := by
        intro hB hS
        rw [hgB, Nat.div_lt_iff_lt_mul (by omega)]
        calc S * p.reserveB < p.supply * p.reserveB :=
              mul_lt_mul_of_pos_right hS (Nat.pos_of_ne_zero hB)
          _ = p.reserveB * p.supply := Nat.mul_comm _ _
      unfold PoolInv at hInv ⊢
      simp only
      omega

theorem stepSys_error (s : SysState) (r : Req) (e : MarginPoolError)
    (h : applyReq s r = .error e) : stepSys s r = s := by
  unfold stepSys
  rw [h]

theorem stepSys_ok (s : SysState) (r : Req) (s' : SysState)
    (h : applyReq s r = .ok s') : stepSys s r = s' := by
  unfold stepSys
  rw [h]

theorem applyReq_preserves_inv (s : SysState) (r : Req) (s' : SysState)
    (hInv : PoolInv s.pool) (h : applyReq s r = .ok s') : PoolInv s'.pool := by
  cases r with
  | openReq a b m =>
    simp only [applyReq] at h
    cases hpos : s.position with
    | some pos =>
      rw [hpos] at h
      exact absurd h (by simp)
    | none =>
      rw [hpos] at h
      cases hop : openPosition s.pool a b m with
      | error e =>
        rw [hop] at h
        exact absurd h (by simp)
      | ok t =>
        obtain ⟨p', pos', out⟩ := t
        rw [hop] at h
        simp only [Except.ok.injEq] at h
        subst h
        exact open_preserves_inv s.pool a b m p' pos' out hInv hop
  | closeReq a m =>
    simp only [applyReq] at h
    cases hpos : s.position with
    | none =>
      rw [hpos] at h
      exact absurd h (by simp)
    | some pos =>
      rw [hpos] at h
      simp only at h
      cases hop : closePosition s.pool pos a m with
      | error e =>
        rw [hop] at h
        exact absurd h (by simp)
      | ok t =>
        obtain ⟨p', ret⟩ := t
        rw [hop] at h
        simp only [Except.ok.injEq] at h
        subst h
        exact close_preserves_inv s.pool pos a m p' ret hInv hop
  | depositReq amt mx =>
    simp only [applyReq] at h
    cases hop : deposit s.pool amt mx with
    | error e =>
      rw [hop] at h
      exact absurd h (by simp)
    | ok t =>
      obtain ⟨p', qA, qB⟩ := t
      rw [hop] at h
      simp only [Except.ok.injEq] at h
      subst h
      exact deposit_preserves_inv s.pool amt mx p' qA qB hInv hop
  | withdrawReq amt mn =>
    simp only [applyReq] at h
    cases hop : withdraw s.pool amt mn with
    | error e =>
      rw [hop] at h
      exact absurd h (by simp)
    | ok t =>
      obtain ⟨p', oA, oB⟩ := t
      rw [hop] at h
      simp only [Except.ok.injEq] at h
      subst h
      exact withdraw_preserves_inv s.pool amt mn p' oA oB hInv hop

/-- C9: every pool state reachable from a successful Initialize through any
sequence of the four post-initialization operations satisfies the Pool
invariant of spec §3: the share-mint supply is zero exactly when both reserves
are zero.  (Reserves are natural numbers, hence never negative.) -/
theorem reachable_pool_inv (s : SysState) (h : Reachable s) :
    PoolInv s.pool := by
  induction h with
  | base nonce feeNum feeDen p hinit =>
    unfold initializePool at hinit
    rw [if_neg (by simp)] at hinit
    simp only [Except.ok.injEq] at hinit
    subst hinit
    unfold PoolInv
    simp
  | step s r hr ih =>
    rcases happ : applyReq s r with e | s'
    · rw [stepSys_error s r e happ]
      exact ih
    · rw [stepSys_ok s r s' happ]
      exact applyReq_preserves_inv s r s' ih happ

/-- C9 witness: the freshly initialized pool (all balances zero) satisfies the
invariant, via its reachability. -/
theorem reachable_pool_inv_witness :
    PoolInv (SysState.mk ⟨0, 0, 0, 0, 0, 1, 1⟩ none).pool :=
  reachable_pool_inv (SysState.mk ⟨0, 0, 0, 0, 0, 1, 1⟩ none)
    (Reachable.base 1 0 1 ⟨0, 0, 0, 0, 0, 1, 1⟩ rfl)
